import Mathlib

/-!
Shallow embedding of the Storm-Event-Tracker ring DHT.

The repository has two source files: `manager.py` (the coordinator: peer
registry, identity assignment, ring rebuild, hash-based item distribution)
and `peer.py` (a node: local partition, lookup forwarding, successor
pointer).  Python dicts are embedded as association lists, UDP sends as
explicit `(destination, message)` pairs returned by each handler, and the
per-process Python string hash as an abstract function parameter
`h : String → Int`.  A send to a `None` address (which raises in Python)
is an `Except.error`.
-/

namespace StormDHT

/-- Association-list model of a Python dict lookup `d.get(k)`:
the first binding of the key, if any. -/
def alookup {α β : Type} [DecidableEq α] (k : α) : List (α × β) → Option β
  | [] => none
  | p :: rest => if p.1 = k then some p.2 else alookup k rest

/-- Association-list model of Python dict assignment `d[k] = v`:
overwrite the first binding of `k` in place, else append. -/
def aset {α β : Type} [DecidableEq α] (k : α) (v : β) : List (α × β) → List (α × β)
  | [] => [(k, v)]
  | p :: rest => if p.1 = k then (k, v) :: rest else p :: aset k v rest

/-- Association-list model of Python dict deletion `del d[k]`:
remove the first binding of `k`. -/
def adel {α β : Type} [DecidableEq α] (k : α) : List (α × β) → List (α × β)
  | [] => []
  | p :: rest => if p.1 = k then rest else p :: adel k rest

theorem alookup_aset_self {α β : Type} [DecidableEq α] (k : α) (v : β)
    (l : List (α × β)) : alookup k (aset k v l) = some v := by
  induction l with
  | nil => simp [aset, alookup]
  | cons p rest ih =>
    by_cases hp : p.1 = k
    · simp [aset, hp, alookup]
    · simp [aset, hp, alookup, ih]

theorem alookup_aset_ne {α β : Type} [DecidableEq α] {k k' : α} (v : β)
    (l : List (α × β)) (hne : k' ≠ k) :
    alookup k' (aset k v l) = alookup k' l := by
  have hkk : ¬(k = k') := fun h => hne h.symm
  induction l with
  | nil => simp [aset, alookup, hkk]
  | cons p rest ih =>
    by_cases hp : p.1 = k
    · simp [aset, hp, alookup, hkk]
    · simp [aset, hp, alookup, ih]

theorem alookup_eq_none_iff {α β : Type} [DecidableEq α] (k : α)
    (l : List (α × β)) : alookup k l = none ↔ k ∉ l.map Prod.fst := by
  induction l with
  | nil => simp [alookup]
  | cons p rest ih =>
    by_cases hp : p.1 = k
    · simp [alookup, hp]
    · have hkp : ¬(k = p.1) := fun h => hp h.symm
      simp [alookup, hp, ih, hkp]

theorem adel_of_absent {α β : Type} [DecidableEq α] (k : α)
    (l : List (α × β)) (h : alookup k l = none) : adel k l = l := by
  induction l with
  | nil => simp [adel]
  | cons p rest ih =>
    by_cases hp : p.1 = k
    · simp [alookup, hp] at h
    · simp [alookup, hp] at h
      simp [adel, hp, ih h]

theorem alookup_adel_self {α β : Type} [DecidableEq α] (k : α)
    (l : List (α × β)) (hnd : (l.map Prod.fst).Nodup) :
    alookup k (adel k l) = none := by
  induction l with
  | nil => simp [adel, alookup]
  | cons p rest ih =>
    simp only [List.map_cons, List.nodup_cons] at hnd
    by_cases hp : p.1 = k
    · subst hp
      rw [adel, if_pos rfl, (alookup_eq_none_iff p.1 rest)]
      exact hnd.1
    · rw [adel, if_neg hp, alookup, if_neg hp]
      exact ih hnd.2

/-- A network endpoint `(host, port)`; peers bind on 127.0.0.1. -/
abbrev Addr : Type := String × Nat

/-- One CSV row: the Python dict of column name to value. -/
abbrev EventData : Type := List (String × String)

/-- The wire messages of the protocol (the `command` field of each JSON
datagram together with its command-specific fields). -/
inductive Msg : Type where
  | register (peer_port : Nat)
  | set_id (peer_id : Nat)
  | store (event_id : String) (event_data : EventData)
  | store_ack (peer_id : Option Nat) (event_id : String)
  | find_event (event_id : String)
  | found_event (event_id : String) (event_data : EventData)
  | leave (peer_id : Nat)
  | set_next_peer (next_peer : Addr)
  | teardown
  deriving DecidableEq, Inhabited

/-- `MANAGER_ADDRESS = ('127.0.0.1', 5000)` from peer.py. -/
def MANAGER_ADDRESS : Addr := ("127.0.0.1", 5000)

/-- Mutable state of the Manager: `self.peers` (dict peer_id -> (address,
port)) and `self.next_peer_id`. -/
structure MgrState where
  peers : List (Nat × Addr)
  next_peer_id : Nat
  deriving DecidableEq, Inhabited

/-- The Manager's initial state: empty registry, `next_peer_id = 0`. -/
def initManager : MgrState := { peers := [], next_peer_id := 0 }

/-- `Manager.register_peer`: allocate `next_peer_id`, record the peer at
the datagram's source address with its announced port, reply `set_id`. -/
def register_peer (s : MgrState) (peer_port : Nat) (addr : Addr) :
    MgrState × List (Addr × Msg) :=
  let peer_id := s.next_peer_id
  let peer_address := addr.1
  let s' : MgrState :=
    { peers := aset peer_id (peer_address, peer_port) s.peers,
      next_peer_id := peer_id + 1 }
  (s', [(addr, Msg.set_id peer_id)])

/-- `sorted(self.peers.items(), key=lambda x: x[0])`: the registry in
ascending-identity order. -/
def sortedPeers (s : MgrState) : List (Nat × Addr) :=
  s.peers.mergeSort (fun a b => decide (a.1 ≤ b.1))

/-- `Manager.update_ring`: sort the registry by peer id; if empty, report
and send nothing; otherwise send peer `i` a `set_next_peer` naming the
`(address, port)` of peer `(i+1) % n`. -/
def update_ring (s : MgrState) : List (Addr × Msg) :=
  let sorted_peers := sortedPeers s
  let n := sorted_peers.length
  if n = 0 then []
  else
    (List.range n).map (fun i =>
      let peer := sorted_peers.getD i default
      let next_peer := (sorted_peers.getD ((i + 1) % n) default).2
      (peer.2, Msg.set_next_peer next_peer))

/-- Outcome of a Manager message handler on its listener thread: either
the handler returns, or it blocks forever part-way through, with the
registry mutations already applied and the messages already sent up to
the blocking point. -/
inductive MgrOutcome : Type where
  | completed (state : MgrState) (msgs : List (Addr × Msg))
  | blocked (state : MgrState) (msgs : List (Addr × Msg))
  deriving DecidableEq

/-- The Manager state after the handler ran (or wedged). -/
def MgrOutcome.state : MgrOutcome → MgrState
  | MgrOutcome.completed s _ => s
  | MgrOutcome.blocked s _ => s

/-- The messages the handler actually sent. -/
def MgrOutcome.msgs : MgrOutcome → List (Addr × Msg)
  | MgrOutcome.completed _ m => m
  | MgrOutcome.blocked _ m => m

/-- `Manager.remove_peer`: under `with self.lock`, if the id is
registered, delete it and call `self.update_ring()` while still holding
`self.lock`.  Because `self.lock` is a non-reentrant `threading.Lock`,
the `with self.lock` at the top of `update_ring` then blocks forever:
the handler never returns, the lock is never released, and no
`set_next_peer` (nor any other message) is sent — only the registry
deletion takes effect.  Removing an unknown id is a warned no-op and
the handler completes normally. -/
def remove_peer (s : MgrState) (peer_id : Nat) : MgrOutcome :=
  if (alookup peer_id s.peers).isSome then
    let s' : MgrState := { s with peers := adel peer_id s.peers }
    MgrOutcome.blocked s' []
  else
    MgrOutcome.completed s []

/-- The key string of one event row: `event.get("EVENT_ID")` if present,
else `str(hash(str(event)))`, where `h` is the process string hash and
`strOf` the Python rendering of the row dict. -/
def eventKey (h : String → Int) (strOf : EventData → String)
    (event : EventData) : String :=
  match alookup "EVENT_ID" event with
  | some k => k
  | none => toString (h (strOf event))

/-- `sorted(self.peers.keys())`: the registered identities in ascending
order. -/
def sortedIds (s : MgrState) : List Nat :=
  (s.peers.map Prod.fst).mergeSort (fun a b => decide (a ≤ b))

/-- The store message `distribute_events` builds for one event row:
key it, take the peer id at position `hash(key) % num_peers` of the
ascending-id ordering, and address the registry entry of that id. -/
def assignEvent (h : String → Int) (strOf : EventData → String)
    (s : MgrState) (event : EventData) : Addr × Msg :=
  let key_str := eventKey h strOf event
  let assigned_index := (h key_str % (((sortedIds s).length : Int))).toNat
  let assigned_peer_id := (sortedIds s).getD assigned_index 0
  let assigned_peer := (alookup assigned_peer_id s.peers).getD default
  (assigned_peer, Msg.store key_str event)

/-- `Manager.distribute_events`: refuse on an empty registry; otherwise
send each event to the peer whose id sits at position
`hash(key) % num_peers` in the ascending-id ordering of the registry.
Returns the (unchanged) state and the sent messages. -/
def distribute_events (h : String → Int) (strOf : EventData → String)
    (s : MgrState) (events : List EventData) :
    MgrState × List (Addr × Msg) :=
  if s.peers = [] then (s, [])
  else (s, events.map (fun event => assignEvent h strOf s event))

/-- Mutable state of a Peer: its bound port, the manager-assigned id
(`None` before registration), the local partition `data_store`, and the
successor pointer `next_peer` (`None` until a `set_next_peer` arrives). -/
structure PeerState where
  p_port : Nat
  peer_id : Option Nat
  data_store : List (String × EventData)
  next_peer : Option Addr
  running : Bool
  deriving DecidableEq, Inhabited

/-- The address a peer's socket is bound to: `('127.0.0.1', p_port)`. -/
def peerAddr (st : PeerState) : Addr := ("127.0.0.1", st.p_port)

/-- `Peer.store_event`: thread-safe `self.data_store[event_id] = event_data`. -/
def store_event (s : PeerState) (event_id : String) (event_data : EventData) :
    PeerState :=
  { s with data_store := aset event_id event_data s.data_store }

/-- `Peer.handle_store`: store the event locally, then send `store_ack`
naming the event id and this peer's id to the manager. -/
def handle_store (s : PeerState) (event_id : String) (event_data : EventData) :
    PeerState × List (Addr × Msg) :=
  let s' := store_event s event_id event_data
  (s', [(MANAGER_ADDRESS, Msg.store_ack s.peer_id event_id)])

/-- `Peer.handle_find_event`: if the event is in the local partition,
send `found_event` back to the datagram's source address `addr`
(`sendto` raises when `addr` is `None`); otherwise forward the identical
`find_event` message to `next_peer` when one is set, else just report. -/
def handle_find_event (s : PeerState) (event_id : String) (addr : Option Addr) :
    Except Unit (List (Addr × Msg)) :=
  match alookup event_id s.data_store with
  | some event_data =>
    match addr with
    | some a => Except.ok [(a, Msg.found_event event_id event_data)]
    | none => Except.error ()
  | none =>
    match s.next_peer with
    | some np => Except.ok [(np, Msg.find_event event_id)]
    | none => Except.ok []

/-- `Peer.handle_set_next_peer`: overwrite the successor pointer. -/
def handle_set_next_peer (s : PeerState) (np : Addr) : PeerState :=
  { s with next_peer := some np }

/-- `Peer.handle_teardown`: stop the serving loop. -/
def handle_teardown (s : PeerState) : PeerState :=
  { s with running := false }

/-- `Peer.handle_message`: dispatch on the `command` discriminator.
`found_event` only prints; `set_id` duplicates and unknown commands are
ignored. -/
def handle_message (s : PeerState) (m : Msg) (addr : Option Addr) :
    Except Unit (PeerState × List (Addr × Msg)) :=
  match m with
  | Msg.store event_id event_data => Except.ok (handle_store s event_id event_data)
  | Msg.find_event event_id =>
    (handle_find_event s event_id addr).map (fun msgs => (s, msgs))
  | Msg.found_event _ _ => Except.ok (s, [])
  | Msg.set_next_peer np => Except.ok (handle_set_next_peer s np, [])
  | Msg.teardown => Except.ok (handle_teardown s, [])
  | _ => Except.ok (s, [])

/-- `Peer.query_event`: if a successor is known, send it `find_event`;
otherwise run the handler locally with a `None` reply address
(`self.handle_message(msg, None)`). -/
def query_event (s : PeerState) (event_id : String) :
    Except Unit (PeerState × List (Addr × Msg)) :=
  match s.next_peer with
  | some np => Except.ok (s, [(np, Msg.find_event event_id)])
  | none => handle_message s (Msg.find_event event_id) none

/-- Index of the peer whose bound address is `a`, if any (UDP delivery:
the datagram reaches the socket bound to its destination address). -/
def indexOfAddr : List PeerState → Addr → Option Nat
  | [], _ => none
  | st :: rest, a =>
    if peerAddr st = a then some 0 else (indexOfAddr rest a).map (fun i => i + 1)

/-- Outcome of driving one in-flight `find_event` datagram through the
network for a bounded number of delivery steps. -/
inductive LookupOutcome : Type where
  | answered (dest : Addr) (event_data : EventData)
  | pending (pos : Nat) (src : Option Addr)
  | dropped
  | crashed
  | lost
  deriving DecidableEq

/-- Network semantics for one circulating `find_event eid` datagram:
deliver it to the node at index `pos` with UDP source `src`, run
`handle_find_event`, and follow the forwarded copy to the node bound to
its destination address; `fuel` bounds the number of deliveries. -/
def runLookup (nodes : List PeerState) (eid : String) :
    Nat → Nat → Option Addr → LookupOutcome
  | 0, pos, src => LookupOutcome.pending pos src
  | fuel + 1, pos, src =>
    if pos < nodes.length then
      let st := nodes.getD pos default
      match handle_find_event st eid src with
      | Except.error _ => LookupOutcome.crashed
      | Except.ok [] => LookupOutcome.dropped
      | Except.ok [(dest, Msg.found_event _ event_data)] =>
        LookupOutcome.answered dest event_data
      | Except.ok [(dest, Msg.find_event _)] =>
        match indexOfAddr nodes dest with
        | some pos' => runLookup nodes eid fuel pos' (some (peerAddr st))
        | none => LookupOutcome.lost
      | Except.ok _ => LookupOutcome.crashed
    else LookupOutcome.lost

/-- The ring is consistent: node `i`'s successor pointer names the bound
address of node `(i+1) % n`. -/
def RingConsistent (nodes : List PeerState) : Prop :=
  ∀ i, i < nodes.length →
    (nodes.getD i default).next_peer =
      some (peerAddr (nodes.getD ((i + 1) % nodes.length) default))

/-- The peers' bound ports are pairwise distinct (each binds its own
socket), so UDP delivery is unambiguous. -/
def DistinctPorts (nodes : List PeerState) : Prop :=
  (nodes.map PeerState.p_port).Nodup

/-- Where a `found_event` answer produced after `d` forwarding hops is
sent: for `d = 0` the original UDP source `a`, otherwise the bound
address of the last forwarder, the node at `(pos + d - 1) % n`. -/
def chainDest (nodes : List PeerState) (a : Addr) (pos d : Nat) : Addr :=
  if d = 0 then a
  else peerAddr (nodes.getD ((pos + d - 1) % nodes.length) default)

/-- Ring distance: number of forwarding hops from position `p` to
position `X` walking in successor direction. -/
def ringDist (n p X : Nat) : Nat := (X + n - p) % n

/-- The registry-mutating requests the Manager can receive: a `register`
datagram (with its source address) or a `leave` datagram. -/
inductive MOp : Type where
  | register (peer_port : Nat) (addr : Addr)
  | leave (peer_id : Nat)
  deriving DecidableEq

/-- Run one registry-mutating request against the Manager state. -/
def applyMOp (s : MgrState) : MOp → MgrState
  | MOp.register p a => (register_peer s p a).1
  | MOp.leave peer_id => (remove_peer s peer_id).state

/-- The identities the Manager hands out (in `set_id` replies) along a
sequence of requests starting from state `s`. -/
def issuedIds (s : MgrState) : List MOp → List Nat
  | [] => []
  | MOp.register p a :: rest =>
    s.next_peer_id :: issuedIds (register_peer s p a).1 rest
  | MOp.leave peer_id :: rest => issuedIds (remove_peer s peer_id).state rest

/-- Number of `register` requests in a sequence. -/
def regCount : List MOp → Nat
  | [] => 0
  | MOp.register _ _ :: rest => regCount rest + 1
  | MOp.leave _ :: rest => regCount rest

theorem remove_peer_next_id (s : MgrState) (peer_id : Nat) :
    (remove_peer s peer_id).state.next_peer_id = s.next_peer_id := by
  by_cases h : (alookup peer_id s.peers).isSome <;>
    simp [remove_peer, MgrOutcome.state, h]

theorem issuedIds_eq_range' (ops : List MOp) :
    ∀ s : MgrState, issuedIds s ops = List.range' s.next_peer_id (regCount ops) := by
  induction ops with
  | nil => intro s; simp [issuedIds, regCount]
  | cons op rest ih =>
    intro s
    cases op with
    | register p a =>
      have hnext : (register_peer s p a).1.next_peer_id = s.next_peer_id + 1 := rfl
      simp [issuedIds, regCount, List.range', ih, hnext]
    | leave peer_id =>
      simp [issuedIds, regCount, ih, remove_peer_next_id]

theorem length_sortedPeers (s : MgrState) :
    (sortedPeers s).length = s.peers.length :=
  (List.mergeSort_perm s.peers (fun a b => decide (a.1 ≤ b.1))).length_eq

theorem length_update_ring (s : MgrState) :
    (update_ring s).length = s.peers.length := by
  rw [← length_sortedPeers]
  unfold update_ring
  by_cases h : (sortedPeers s).length = 0
  · simp [h]
  · simp [h]

theorem update_ring_getD (s : MgrState) (i : Nat)
    (hi : i < (sortedPeers s).length) (d : Addr × Msg) :
    (update_ring s).getD i d =
      (((sortedPeers s).getD i default).2,
        Msg.set_next_peer
          (((sortedPeers s).getD ((i + 1) % (sortedPeers s).length) default).2)) := by
  have hn : ¬((sortedPeers s).length = 0) := by omega
  have hlen : i < ((List.range (sortedPeers s).length).map (fun i =>
      let peer := (sortedPeers s).getD i default
      let next_peer := ((sortedPeers s).getD ((i + 1) % (sortedPeers s).length) default).2
      (peer.2, Msg.set_next_peer next_peer))).length := by
    simpa using hi
  unfold update_ring
  rw [if_neg hn, List.getD_eq_getElem _ _ hlen, List.getElem_map]
  simp

theorem indexOfAddr_peerAddr (nodes : List PeerState) (j : Nat)
    (hj : j < nodes.length) (hnd : DistinctPorts nodes) :
    indexOfAddr nodes (peerAddr (nodes.getD j default)) = some j := by
  induction nodes generalizing j with
  | nil => simp at hj
  | cons st rest ih =>
    unfold DistinctPorts at hnd
    simp only [List.map_cons, List.nodup_cons] at hnd
    cases j with
    | zero => simp [indexOfAddr]
    | succ j' =>
      have hj' : j' < rest.length := by simpa using hj
      have hmem : rest.getD j' default ∈ rest := by
        rw [List.getD_eq_getElem _ _ hj']
        exact List.getElem_mem hj'
      have hport : st.p_port ≠ (rest.getD j' default).p_port := by
        intro he
        exact hnd.1 (he ▸ List.mem_map_of_mem PeerState.p_port hmem)
      have hne : ¬(peerAddr st = peerAddr ((st :: rest).getD (j' + 1) default)) := by
        simp only [List.getD_cons_succ]
        intro he
        exact hport (congrArg Prod.snd he)
      unfold indexOfAddr
      rw [if_neg hne]
      simp only [List.getD_cons_succ]
      rw [ih j' hj' hnd.2]
      rfl

theorem runLookup_answer (nodes : List PeerState) (eid : String) (fuel pos : Nat)
    (a : Addr) (v : EventData) (hp : pos < nodes.length)
    (hv : alookup eid (nodes.getD pos default).data_store = some v) :
    runLookup nodes eid (fuel + 1) pos (some a) = LookupOutcome.answered a v := by
  simp only [runLookup, if_pos hp, handle_find_event, hv]

theorem runLookup_forward (nodes : List PeerState) (eid : String) (fuel pos : Nat)
    (src : Option Addr) (hring : RingConsistent nodes) (hnd : DistinctPorts nodes)
    (hp : pos < nodes.length)
    (habs : alookup eid (nodes.getD pos default).data_store = none) :
    runLookup nodes eid (fuel + 1) pos src =
      runLookup nodes eid fuel ((pos + 1) % nodes.length)
        (some (peerAddr (nodes.getD pos default))) := by
  have hn0 : 0 < nodes.length := Nat.lt_of_le_of_lt (Nat.zero_le pos) hp
  have hnp := hring pos hp
  have hidx := indexOfAddr_peerAddr nodes ((pos + 1) % nodes.length)
    (Nat.mod_lt _ hn0) hnd
  simp only [runLookup, if_pos hp, handle_find_event, habs, hnp, hidx]

theorem chainDest_succ (nodes : List PeerState) (a : Addr) (pos d : Nat)
    (hp : pos < nodes.length) :
    chainDest nodes (peerAddr (nodes.getD pos default))
        ((pos + 1) % nodes.length) d =
      chainDest nodes a pos (d + 1) := by
  cases d with
  | zero =>
    simp [chainDest, Nat.mod_eq_of_lt hp]
  | succ e =>
    simp only [chainDest, if_neg (Nat.succ_ne_zero e), if_neg (Nat.succ_ne_zero (e + 1))]
    have h1 : (pos + 1) % nodes.length + (e + 1) - 1 = (pos + 1) % nodes.length + e := by
      omega
    have h2 : pos + (e + 1 + 1) - 1 = pos + 1 + e := by omega
    rw [h1, h2, Nat.mod_add_mod]

theorem runLookup_chain (nodes : List PeerState) (eid : String) (v : EventData)
    (hring : RingConsistent nodes) (hnd : DistinctPorts nodes) :
    ∀ d pos, pos < nodes.length →
      (∀ k, k < d →
        alookup eid ((nodes.getD ((pos + k) % nodes.length) default).data_store) = none) →
      alookup eid ((nodes.getD ((pos + d) % nodes.length) default).data_store) = some v →
      ∀ a : Addr, runLookup nodes eid (d + 1) pos (some a) =
        LookupOutcome.answered (chainDest nodes a pos d) v := by
  intro d
  induction d with
  | zero =>
    intro pos hp _ hv a
    rw [Nat.add_zero, Nat.mod_eq_of_lt hp] at hv
    rw [runLookup_answer nodes eid 0 pos a v hp hv]
    simp [chainDest]
  | succ d ih =>
    intro pos hp habs hv a
    have hn0 : 0 < nodes.length := Nat.lt_of_le_of_lt (Nat.zero_le pos) hp
    have habs0 : alookup eid ((nodes.getD pos default).data_store) = none := by
      have h0 := habs 0 (Nat.succ_pos d)
      rwa [Nat.add_zero, Nat.mod_eq_of_lt hp] at h0
    rw [runLookup_forward nodes eid (d + 1) pos (some a) hring hnd hp habs0]
    have hp' : (pos + 1) % nodes.length < nodes.length := Nat.mod_lt _ hn0
    have habs' : ∀ k, k < d →
        alookup eid ((nodes.getD (((pos + 1) % nodes.length + k) % nodes.length)
          default).data_store) = none := by
      intro k hk
      rw [Nat.mod_add_mod]
      have hk1 : pos + 1 + k = pos + (k + 1) := by omega
      rw [hk1]
      exact habs (k + 1) (by omega)
    have hv' : alookup eid ((nodes.getD (((pos + 1) % nodes.length + d) % nodes.length)
        default).data_store) = some v := by
      rw [Nat.mod_add_mod]
      have hd1 : pos + 1 + d = pos + (d + 1) := by omega
      rw [hd1]
      exact hv
    rw [ih ((pos + 1) % nodes.length) hp' habs' hv'
      (peerAddr (nodes.getD pos default))]
    rw [chainDest_succ nodes a pos d hp]

theorem runLookup_circulate (nodes : List PeerState) (eid : String)
    (hring : RingConsistent nodes) (hnd : DistinctPorts nodes)
    (habs : ∀ j, j < nodes.length →
      alookup eid ((nodes.getD j default).data_store) = none) :
    ∀ fuel pos, pos < nodes.length → ∀ src : Option Addr,
      runLookup nodes eid (fuel + 1) pos src =
        LookupOutcome.pending ((pos + fuel + 1) % nodes.length)
          (some (peerAddr (nodes.getD ((pos + fuel) % nodes.length) default))) := by
  intro fuel
  induction fuel with
  | zero =>
    intro pos hp src
    rw [runLookup_forward nodes eid 0 pos src hring hnd hp (habs pos hp)]
    simp [runLookup, Nat.mod_eq_of_lt hp]
  | succ fuel ih =>
    intro pos hp src
    have hn0 : 0 < nodes.length := Nat.lt_of_le_of_lt (Nat.zero_le pos) hp
    rw [runLookup_forward nodes eid (fuel + 1) pos src hring hnd hp (habs pos hp)]
    have hp' : (pos + 1) % nodes.length < nodes.length := Nat.mod_lt _ hn0
    rw [ih ((pos + 1) % nodes.length) hp' (some (peerAddr (nodes.getD pos default)))]
    have e1 : ((pos + 1) % nodes.length + fuel + 1) % nodes.length =
        (pos + (fuel + 1) + 1) % nodes.length := by
      rw [Nat.add_assoc ((pos + 1) % nodes.length) fuel 1, Nat.mod_add_mod]
      have h : pos + 1 + (fuel + 1) = pos + (fuel + 1) + 1 := by omega
      rw [h]
    have e2 : ((pos + 1) % nodes.length + fuel) % nodes.length =
        (pos + (fuel + 1)) % nodes.length := by
      rw [Nat.mod_add_mod]
      have h : pos + 1 + fuel = pos + (fuel + 1) := by omega
      rw [h]
    rw [e1, e2]

theorem path_pos_ne (n p d k X : Nat) (hk : k < d) (hd : d < n)
    (hX : (p + d) % n = X) : (p + k) % n ≠ X := by
  intro hkX
  have heq : (p + k) % n = (p + d) % n := by rw [hkX, hX]
  have h1 : k ≡ d [MOD n] := Nat.ModEq.add_left_cancel' p heq
  have h2 : k = d := by
    rwa [Nat.ModEq, Nat.mod_eq_of_lt (Nat.lt_trans hk hd), Nat.mod_eq_of_lt hd] at h1
  omega

theorem ringDist_lt (n p X : Nat) (hn : 0 < n) : ringDist n p X < n :=
  Nat.mod_lt _ hn

theorem add_ringDist (n p X : Nat) (hp : p < n) (hX : X < n) :
    (p + ringDist n p X) % n = X := by
  unfold ringDist
  rw [Nat.add_mod_mod]
  have hple : p ≤ X + n := by omega
  rw [Nat.add_sub_cancel' hple, Nat.add_mod_right, Nat.mod_eq_of_lt hX]

theorem update_ring_covers (s : MgrState) (p : Nat × Addr) (hp : p ∈ s.peers) :
    ∃ np : Addr, (p.2, Msg.set_next_peer np) ∈ update_ring s := by
  have hps : p ∈ sortedPeers s :=
    ((List.mergeSort_perm s.peers (fun a b => decide (a.1 ≤ b.1))).mem_iff).mpr hp
  obtain ⟨i, hi, hieq⟩ := List.mem_iff_getElem.mp hps
  refine ⟨((sortedPeers s).getD ((i + 1) % (sortedPeers s).length) default).2, ?_⟩
  have hlen : (update_ring s).length = (sortedPeers s).length := by
    rw [length_update_ring, length_sortedPeers]
  have hi' : i < (update_ring s).length := by omega
  have hgd : (sortedPeers s).getD i default = p := by
    rw [List.getD_eq_getElem _ _ hi, hieq]
  have hchar := update_ring_getD s i hi ((update_ring s).getD i default)
  rw [hgd] at hchar
  rw [List.getD_eq_getElem _ _ hi'] at hchar
  exact hchar ▸ List.getElem_mem hi'

/-- Recognizer for successor-update messages. -/
def isSetNext : Msg → Bool
  | Msg.set_next_peer _ => true
  | _ => false

/-- A concrete registry of three peers, already in ascending-id order. -/
def mgrA : MgrState :=
  { peers := [(0, ("127.0.0.1", 9000)), (1, ("127.0.0.1", 9001)),
      (2, ("127.0.0.1", 9002))],
    next_peer_id := 3 }

/-- A concrete registry of one peer. -/
def mgrB : MgrState :=
  { peers := [(0, ("127.0.0.1", 9000))], next_peer_id := 1 }

theorem sortedPeers_mgrA : sortedPeers mgrA = mgrA.peers :=
  List.mergeSort_of_sorted (by decide)

theorem sortedIds_mgrA : sortedIds mgrA = [0, 1, 2] :=
  List.mergeSort_of_sorted (by decide)

/-- A concrete consistent three-node ring; only node 2 stores event E1. -/
def nodesC : List PeerState :=
  [{ p_port := 9000, peer_id := some 0, data_store := [],
     next_peer := some ("127.0.0.1", 9001), running := true },
   { p_port := 9001, peer_id := some 1, data_store := [],
     next_peer := some ("127.0.0.1", 9002), running := true },
   { p_port := 9002, peer_id := some 2, data_store := [("E1", [("k", "v")])],
     next_peer := some ("127.0.0.1", 9000), running := true }]

/-- A concrete isolated peer: no successor, one stored event. -/
def peerW : PeerState :=
  { p_port := 9100, peer_id := some 7, data_store := [("B", [("x", "y")])],
    next_peer := none, running := true }

/-- C1: a rebuild over the empty registry sends nothing; over a non-empty
registry it sends exactly one message per peer, the message at position
`i` of the ascending-identity ordering going to peer `i`'s address and
naming the address/port of the peer at position `(i+1) mod n`; the
ordering is the registry sorted by ascending identity, and a singleton
ring names the peer its own successor. -/
theorem ring_rebuild_correct (s : MgrState) :
    (s.peers = [] → update_ring s = []) ∧
    (update_ring s).length = s.peers.length ∧
    (∀ i, i < (sortedPeers s).length → ∀ d : Addr × Msg,
      (update_ring s).getD i d =
        (((sortedPeers s).getD i default).2,
          Msg.set_next_peer
            (((sortedPeers s).getD ((i + 1) % (sortedPeers s).length) default).2))) ∧
    (sortedPeers s).Perm s.peers ∧
    (sortedPeers s).Pairwise (fun a b => a.1 ≤ b.1) ∧
    (∀ p : Nat × Addr, sortedPeers s = [p] →
      update_ring s = [(p.2, Msg.set_next_peer p.2)]) := by
  refine ⟨?_, length_update_ring s, update_ring_getD s, ?_, ?_, ?_⟩
  · intro hs
    simp [update_ring, sortedPeers, hs]
  · exact List.mergeSort_perm s.peers (fun a b => decide (a.1 ≤ b.1))
  · have hs := @List.sorted_mergeSort (Nat × Addr)
      (fun a b => decide (a.1 ≤ b.1))
      (fun a b c hab hbc => by
        simp only [decide_eq_true_eq] at hab hbc ⊢
        omega)
      (fun a b => by
        simp only [Bool.or_eq_true, decide_eq_true_eq]
        omega)
      s.peers
    exact hs.imp (fun hab => of_decide_eq_true hab)
  · intro p hp
    simp [update_ring, hp, List.range_succ]

/-- C1 witness: in the concrete three-peer registry, the rebuild message
at position 1 goes to peer 1 and names peer 2's address/port. -/
theorem ring_rebuild_correct_witness :
    1 < (sortedPeers mgrA).length ∧
    (update_ring mgrA).getD 1 (("", 0), Msg.teardown) =
      (("127.0.0.1", 9001), Msg.set_next_peer ("127.0.0.1", 9002)) := by
  have h1 : 1 < (sortedPeers mgrA).length := by rw [sortedPeers_mgrA]; decide
  refine ⟨h1, ?_⟩
  have h := (ring_rebuild_correct mgrA).2.2.1 1 h1 (("", 0), Msg.teardown)
  rw [h, sortedPeers_mgrA]
  decide

/-- C2: with a non-empty registry, `distribute_events` leaves the state
unchanged and sends, for each event, one store message whose owner is the
registry entry of the peer id at position `hash(key) mod n` of the
ascending-identity ordering of the `n` registered peer ids; the key is the
explicit EVENT_ID field if present, else the digest of the whole row; the
position is always in range; and for a fixed registry two events with the
same key (hence two runs on the same key) get the same owner. -/
theorem distribute_owner_correct (h : String → Int) (strOf : EventData → String)
    (s : MgrState) (events : List EventData) (hne : s.peers ≠ []) :
    (distribute_events h strOf s events).1 = s ∧
    (distribute_events h strOf s events).2 =
      events.map (fun event => assignEvent h strOf s event) ∧
    (∀ event : EventData,
      assignEvent h strOf s event =
        ((alookup ((sortedIds s).getD
            ((h (eventKey h strOf event) % ((sortedIds s).length : Int)).toNat) 0)
          s.peers).getD default,
         Msg.store (eventKey h strOf event) event)) ∧
    (sortedIds s).length = s.peers.length ∧
    (sortedIds s).Perm (s.peers.map Prod.fst) ∧
    (sortedIds s).Pairwise (fun a b => a ≤ b) ∧
    (∀ event : EventData,
      (h (eventKey h strOf event) % ((sortedIds s).length : Int)).toNat <
        (sortedIds s).length) ∧
    (∀ event k, alookup "EVENT_ID" event = some k →
      eventKey h strOf event = k) ∧
    (∀ event, alookup "EVENT_ID" event = none →
      eventKey h strOf event = toString (h (strOf event))) ∧
    (∀ e1 e2 : EventData, eventKey h strOf e1 = eventKey h strOf e2 →
      (assignEvent h strOf s e1).1 = (assignEvent h strOf s e2).1) := by
  have hlen : (sortedIds s).length = s.peers.length := by
    rw [sortedIds,
      (List.mergeSort_perm (s.peers.map Prod.fst) (fun a b => decide (a ≤ b))).length_eq,
      List.length_map]
  have hn0 : 0 < (sortedIds s).length := by
    rw [hlen]
    cases hsp : s.peers with
    | nil => exact absurd hsp hne
    | cons p rest => simp
  refine ⟨?_, ?_, fun event => rfl, hlen, ?_, ?_, ?_, ?_, ?_, ?_⟩
  · simp [distribute_events, hne]
  · simp [distribute_events, hne]
  · exact List.mergeSort_perm (s.peers.map Prod.fst) (fun a b => decide (a ≤ b))
  · have hs := @List.sorted_mergeSort Nat
      (fun a b => decide (a ≤ b))
      (fun a b c hab hbc => by
        simp only [decide_eq_true_eq] at hab hbc ⊢
        omega)
      (fun a b => by
        simp only [Bool.or_eq_true, decide_eq_true_eq]
        omega)
      (s.peers.map Prod.fst)
    exact hs.imp (fun hab => of_decide_eq_true hab)
  · intro event
    have hnz : (((sortedIds s).length : Int)) ≠ 0 := by
      simp only [ne_eq, Nat.cast_eq_zero]
      omega
    have hpos : (0 : Int) < ((sortedIds s).length : Int) := by
      exact_mod_cast hn0
    have hnonneg := Int.emod_nonneg (h (eventKey h strOf event)) hnz
    have hlt := Int.emod_lt_of_pos (h (eventKey h strOf event)) hpos
    omega
  · intro event k hk
    simp [eventKey, hk]
  · intro event hk
    simp [eventKey, hk]
  · intro e1 e2 hkey
    simp only [assignEvent, hkey]

/-- C2 witness: with the process hash mapping every string to 2, the
event keyed EVT1 over the concrete three-peer registry is owned by the
peer at position 2 mod 3, i.e. id 2 at port 9002. -/
theorem distribute_owner_correct_witness :
    mgrA.peers ≠ [] ∧
    assignEvent (fun _ => 2) (fun _ => "") mgrA [("EVENT_ID", "EVT1")] =
      (("127.0.0.1", 9002), Msg.store "EVT1" [("EVENT_ID", "EVT1")]) := by
  have hne : mgrA.peers ≠ [] := by decide
  refine ⟨hne, ?_⟩
  have h := (distribute_owner_correct (fun _ => 2) (fun _ => "") mgrA
    [[("EVENT_ID", "EVT1")]] hne).2.2.1 [("EVENT_ID", "EVT1")]
  rw [h, sortedIds_mgrA]
  decide

/-- C5 counterexample: a successful `register` on a one-peer registry
grows the registry to two peers but sends only the `set_id` reply: zero
successor-update messages, contradicting a broadcast on every membership
change. -/
theorem register_no_broadcast_counterexample :
    (register_peer mgrB 9001 ("127.0.0.1", 9001)).1.peers.length = 2 ∧
    (register_peer mgrB 9001 ("127.0.0.1", 9001)).2 =
      [(("127.0.0.1", 9001), Msg.set_id 1)] ∧
    ((register_peer mgrB 9001 ("127.0.0.1", 9001)).2.countP
      (fun m => isSetNext m.2)) = 0 := by
  refine ⟨?_, ?_, ?_⟩ <;> decide

/-- C5 amended: no membership change causes a successor broadcast.  A
successful `register` sends only the `set_id` reply and zero
`set_next_peer` messages (it never invokes the ring rebuild), and a
successful `remove` of a present identity deletes the registry entry and
then blocks forever re-acquiring the coordinator's non-reentrant lock
inside `update_ring`, sending no message at all.  A ring recomputation
whose successor updates reach every registered peer happens only when
`update_ring` runs with the lock free — the operator's setup command. -/
theorem membership_change_no_broadcast (s : MgrState) (peer_id peer_port : Nat)
    (addr : Addr) :
    ((register_peer s peer_port addr).2 = [(addr, Msg.set_id s.next_peer_id)]) ∧
    ((register_peer s peer_port addr).2.countP (fun m => isSetNext m.2) = 0) ∧
    ((alookup peer_id s.peers).isSome →
      remove_peer s peer_id =
        MgrOutcome.blocked { s with peers := adel peer_id s.peers } []) ∧
    ((alookup peer_id s.peers).isSome → (remove_peer s peer_id).msgs = []) ∧
    (∀ p ∈ s.peers, ∃ np : Addr, (p.2, Msg.set_next_peer np) ∈ update_ring s) := by
  refine ⟨rfl, rfl, ?_, ?_, ?_⟩
  · intro hp
    simp [remove_peer, hp]
  · intro hp
    simp [remove_peer, hp, MgrOutcome.msgs]
  · intro p hmem
    exact update_ring_covers s p hmem

/-- C5 witness: removing the present peer 1 from the concrete three-peer
registry deletes the entry and wedges without sending any message. -/
theorem membership_change_no_broadcast_witness :
    ((alookup 1 mgrA.peers).isSome = true) ∧
    (remove_peer mgrA 1).msgs = [] :=
  ⟨by decide,
    (membership_change_no_broadcast mgrA 1 0 ("", 0)).2.2.2.1 (by decide)⟩

/-- C4: along any sequence of register/leave requests from the initial
Manager state, the issued identities are exactly `0, 1, 2, ...` in
issuance order: strictly increasing, all distinct, never reused after a
departure. -/
theorem identities_unique_increasing (ops : List MOp) :
    issuedIds initManager ops = List.range (regCount ops) ∧
    (issuedIds initManager ops).Pairwise (fun a b => a < b) ∧
    (issuedIds initManager ops).Nodup := by
  have h := issuedIds_eq_range' ops initManager
  rw [show initManager.next_peer_id = 0 from rfl, ← List.range_eq_range'] at h
  exact ⟨h, by rw [h]; exact List.pairwise_lt_range _,
    by rw [h]; exact List.nodup_range _⟩

/-- C6: attempting to distribute events with an empty registry is refused:
the state is returned unchanged and no store message is sent for any
event. -/
theorem empty_registry_distribute_refused (h : String → Int)
    (strOf : EventData → String) (s : MgrState) (events : List EventData)
    (hs : s.peers = []) :
    distribute_events h strOf s events = (s, []) := by
  simp [distribute_events, hs]

/-- C6 witness: the refusal at the initial state with one concrete event. -/
theorem empty_registry_distribute_refused_witness :
    initManager.peers = [] ∧
    distribute_events (fun _ => 2) (fun _ => "") initManager
      [[("EVENT_ID", "EVT1")]] = (initManager, []) :=
  ⟨rfl, empty_registry_distribute_refused (fun _ => 2) (fun _ => "")
    initManager [[("EVENT_ID", "EVT1")]] rfl⟩

/-- C7: removal is idempotent: removing an absent identity completes as a
warned no-op, leaving the Manager state unchanged and sending nothing,
and removing the same identity twice leaves the same registry state as
removing it once. -/
theorem removal_idempotent (s : MgrState) (peer_id : Nat)
    (hnd : (s.peers.map Prod.fst).Nodup) :
    (alookup peer_id s.peers = none →
      remove_peer s peer_id = MgrOutcome.completed s []) ∧
    (remove_peer (remove_peer s peer_id).state peer_id).state =
      (remove_peer s peer_id).state := by
  constructor
  · intro habs
    simp [remove_peer, habs]
  · by_cases hp : (alookup peer_id s.peers).isSome
    · have habs2 : alookup peer_id (adel peer_id s.peers) = none :=
        alookup_adel_self peer_id s.peers hnd
      simp [remove_peer, hp, habs2, MgrOutcome.state]
    · simp [remove_peer, hp, MgrOutcome.state]

/-- C7 witness: removing the unknown identity 5 from a concrete registry
is a no-op that completes. -/
theorem removal_idempotent_witness :
    (mgrA.peers.map Prod.fst).Nodup ∧
    remove_peer mgrA 5 = MgrOutcome.completed mgrA [] :=
  ⟨by decide, (removal_idempotent mgrA 5 (by decide)).1 (by decide)⟩

/-- C8: `handle_store` makes the stored payload retrievable under its key,
overwrites silently, leaves every other key's binding and all other peer
state unchanged, and sends exactly one `store_ack` to the manager naming
the key and the peer's own identity. -/
theorem handle_store_correct (s : PeerState) (k : String) (v : EventData) :
    alookup k (handle_store s k v).1.data_store = some v ∧
    (∀ k' : String, k' ≠ k →
      alookup k' (handle_store s k v).1.data_store = alookup k' s.data_store) ∧
    (handle_store s k v).1.p_port = s.p_port ∧
    (handle_store s k v).1.peer_id = s.peer_id ∧
    (handle_store s k v).1.next_peer = s.next_peer ∧
    (handle_store s k v).2 = [(MANAGER_ADDRESS, Msg.store_ack s.peer_id k)] :=
  ⟨alookup_aset_self k v s.data_store,
   fun _ hk' => alookup_aset_ne v s.data_store hk',
   rfl, rfl, rfl, rfl⟩

/-- C8 witness: storing key A on a concrete peer leaves the binding of
the unrelated key B unchanged. -/
theorem handle_store_correct_witness :
    ("B" : String) ≠ "A" ∧
    alookup "B" (handle_store peerW "A" [("c", "1")]).1.data_store =
      alookup "B" peerW.data_store :=
  ⟨by decide, (handle_store_correct peerW "A" [("c", "1")]).2.1 "B" (by decide)⟩

/-- C3 counterexample: in the concrete three-node ring, node 0 queries
for E1, which node 2 stores.  The query reaches node 2 in two deliveries
(via node 1), but the `found_event` answer is sent to node 1 — the UDP
source of the last hop — not back to the original requester node 0: the
forwarded message carries no origin field. -/
theorem lookup_reply_not_to_origin_counterexample :
    query_event (nodesC.getD 0 default) "E1" =
      Except.ok (nodesC.getD 0 default,
        [(("127.0.0.1", 9001), Msg.find_event "E1")]) ∧
    runLookup nodesC "E1" 2 1 (some ("127.0.0.1", 9000)) =
      LookupOutcome.answered ("127.0.0.1", 9001) [("k", "v")] ∧
    (("127.0.0.1", 9001) : Addr) ≠ peerAddr (nodesC.getD 0 default) := by
  refine ⟨rfl, rfl, by decide⟩

/-- C3 amended: in a consistent ring with distinct ports, a lookup for a
key stored exactly on node X, issued from any node Q, is answered after at
most `n - 1` forwarding hops with the exact stored payload; but because
the `find_event` message carries no origin field, the `found_event`
answer is sent to the UDP source of the delivery that reached the owner —
the requester itself only when the owner is the requester's immediate
successor, and otherwise the owner's ring predecessor (the last
forwarder), not the original requester. -/
theorem lookup_found_reply (nodes : List PeerState) (eid : String)
    (v : EventData) (Q X : Nat) (hring : RingConsistent nodes)
    (hnd : DistinctPorts nodes) (hQ : Q < nodes.length) (hX : X < nodes.length)
    (hv : alookup eid ((nodes.getD X default).data_store) = some v)
    (habs : ∀ j, j < nodes.length → j ≠ X →
      alookup eid ((nodes.getD j default).data_store) = none) :
    ringDist nodes.length ((Q + 1) % nodes.length) X ≤ nodes.length - 1 ∧
    query_event (nodes.getD Q default) eid =
      Except.ok (nodes.getD Q default,
        [(peerAddr (nodes.getD ((Q + 1) % nodes.length) default),
          Msg.find_event eid)]) ∧
    runLookup nodes eid (ringDist nodes.length ((Q + 1) % nodes.length) X + 1)
      ((Q + 1) % nodes.length) (some (peerAddr (nodes.getD Q default))) =
      LookupOutcome.answered
        (chainDest nodes (peerAddr (nodes.getD Q default))
          ((Q + 1) % nodes.length)
          (ringDist nodes.length ((Q + 1) % nodes.length) X)) v := by
  have hn0 : 0 < nodes.length := Nat.lt_of_le_of_lt (Nat.zero_le Q) hQ
  have hp : (Q + 1) % nodes.length < nodes.length := Nat.mod_lt _ hn0
  have hdlt : ringDist nodes.length ((Q + 1) % nodes.length) X < nodes.length :=
    ringDist_lt _ _ _ hn0
  have hadd : ((Q + 1) % nodes.length +
      ringDist nodes.length ((Q + 1) % nodes.length) X) % nodes.length = X :=
    add_ringDist _ _ _ hp hX
  refine ⟨by omega, ?_, ?_⟩
  · have hq := hring Q hQ
    unfold query_event
    rw [hq]
  · refine runLookup_chain nodes eid v hring hnd
      (ringDist nodes.length ((Q + 1) % nodes.length) X)
      ((Q + 1) % nodes.length) hp ?_ ?_ (peerAddr (nodes.getD Q default))
    · intro k hk
      exact habs _ (Nat.mod_lt _ hn0)
        (path_pos_ne nodes.length ((Q + 1) % nodes.length)
          (ringDist nodes.length ((Q + 1) % nodes.length) X) k X hk hdlt hadd)
    · rw [hadd]
      exact hv

/-- C3 witness: the amended statement instantiated on the concrete
three-node ring, querying from node 0 for the key held by node 2. -/
theorem lookup_found_reply_witness :
    RingConsistent nodesC ∧
    runLookup nodesC "E1"
      (ringDist nodesC.length ((0 + 1) % nodesC.length) 2 + 1)
      ((0 + 1) % nodesC.length) (some (peerAddr (nodesC.getD 0 default))) =
      LookupOutcome.answered
        (chainDest nodesC (peerAddr (nodesC.getD 0 default))
          ((0 + 1) % nodesC.length)
          (ringDist nodesC.length ((0 + 1) % nodesC.length) 2)) [("k", "v")] := by
  have hring : RingConsistent nodesC := by
    unfold RingConsistent
    decide
  exact ⟨hring, (lookup_found_reply nodesC "E1" [("k", "v")] 0 2 hring
    (by unfold DistinctPorts; decide) (by decide) (by decide) (by decide)
    (by decide)).2.2⟩

/-- C9: in a consistent ring with a successor set at every node and a key
stored at no node, every node that receives the `find_event` forwards the
identical message to its successor and none ever answers; after any
number `fuel + 1` of deliveries the datagram is still in flight to the
next ring position — it circulates indefinitely, with no hop count or
origin-suppression bound. -/
theorem absent_key_circulates (nodes : List PeerState) (eid : String)
    (hring : RingConsistent nodes) (hnd : DistinctPorts nodes)
    (habs : ∀ j, j < nodes.length →
      alookup eid ((nodes.getD j default).data_store) = none) :
    (∀ j, j < nodes.length → ∀ a : Option Addr,
      handle_find_event (nodes.getD j default) eid a =
        Except.ok [(peerAddr (nodes.getD ((j + 1) % nodes.length) default),
          Msg.find_event eid)]) ∧
    (∀ pos, pos < nodes.length → ∀ src : Option Addr, ∀ fuel,
      runLookup nodes eid (fuel + 1) pos src =
        LookupOutcome.pending ((pos + fuel + 1) % nodes.length)
          (some (peerAddr (nodes.getD ((pos + fuel) % nodes.length) default)))) := by
  constructor
  · intro j hj a
    unfold handle_find_event
    rw [habs j hj, hring j hj]
  · intro pos hpos src fuel
    exact runLookup_circulate nodes eid hring hnd habs fuel pos hpos src

/-- C9 witness: a lookup for the nowhere-stored key ZZ injected at node 0
of the concrete ring is still in flight after five deliveries. -/
theorem absent_key_circulates_witness :
    (∀ j, j < nodesC.length →
      alookup "ZZ" ((nodesC.getD j default).data_store) = none) ∧
    runLookup nodesC "ZZ" 5 0 none =
      LookupOutcome.pending ((0 + 4 + 1) % nodesC.length)
        (some (peerAddr (nodesC.getD ((0 + 4) % nodesC.length) default))) := by
  have habs : ∀ j, j < nodesC.length →
      alookup "ZZ" ((nodesC.getD j default).data_store) = none := by decide
  exact ⟨habs, (absent_key_circulates nodesC "ZZ"
    (by unfold RingConsistent; decide) (by unfold DistinctPorts; decide)
    habs).2 0 (by decide) none 4⟩

/-- C10: on a peer whose successor pointer is unset and whose partition
holds the queried key, `query_event` takes the local path with a `None`
reply address, and the attempt to send the `found_event` reply raises
instead of delivering the payload: both the inner handler and the whole
query end in an error, producing no send at all. -/
theorem local_query_without_successor_fails (s : PeerState) (eid : String)
    (v : EventData) (hnp : s.next_peer = none)
    (hv : alookup eid s.data_store = some v) :
    handle_find_event s eid none = Except.error () ∧
    query_event s eid = Except.error () := by
  have h1 : handle_find_event s eid none = Except.error () := by
    simp [handle_find_event, hv]
  refine ⟨h1, ?_⟩
  simp [query_event, hnp, handle_message, h1, Except.map]

/-- C10 witness: the concrete isolated peer stores key B yet its local
query for B errors out. -/
theorem local_query_without_successor_fails_witness :
    peerW.next_peer = none ∧ query_event peerW "B" = Except.error () :=
  ⟨rfl, (local_query_without_successor_fails peerW "B" [("x", "y")] rfl
    (by decide)).2⟩

end StormDHT
